import Mathlib

/-!
Verification of the streaming transcript stabilizer and the medical-term
utilities of the Healthcare-AI-Translator repository.

JavaScript strings are modelled as `List Char` (`JStr`).  The repository's
`onresult` handlers are translated operation by operation:

* `useSpeech.ts` (second revision, lines 92-125): `buildFI` is the loop that
  accumulates the `final` and `interim` strings, `combineFI` is the
  Android-Chrome combination step (lines 110-122), `useSpeech_combined` is the
  value passed to `onResult`.
* `part_000`'s `onresult` (lines 22-45): `part000_text` models the unguarded
  `event.results[i][0].transcript` access (it throws when the first
  alternative or the transcript field is missing, hence `Except`), and
  `collapseLoop` is the prefix-collapse deduplication loop.
* `medicalTerms.ts`: `MEDICAL_ABBREVIATIONS`, the stable length-descending
  sort of its keys, and `expandMedicalAbbreviations` with the `\bKEY\b` `gi`
  regex replacement modelled by `replaceScan`.

The hook's lifecycle (`start`, `stop`, the effect cleanup, and delivery of a
recognition event to the attached handler) is modelled by `Session`; the
fields `committed` (the final-layer transcript rebuilt by the last processed
event) and `emitted` (the arguments of the `onResult` calls, in order) are
observer fields recording the consumer-visible behaviour.
-/

/-- A JavaScript string, modelled as its sequence of characters. -/
abbrev JStr := List Char

/-- JavaScript `String.prototype.trim()`: strip leading and trailing
whitespace.  (The inputs considered here use ASCII whitespace, where
`Char.isWhitespace` and the JS definition agree.) -/
def jsTrim (s : JStr) : JStr :=
  ((s.dropWhile Char.isWhitespace).reverse.dropWhile Char.isWhitespace).reverse

/-- JavaScript `String.prototype.toLowerCase()` (ASCII range, which covers
the abbreviation table and the transcripts considered here). -/
def jsToLower (s : JStr) : JStr := s.map Char.toLower

/-- Split a string into its whitespace-separated words (auxiliary, with an
accumulator holding the current word reversed). -/
def wordsAux (acc : JStr) : JStr → List JStr
  | [] => if acc = [] then [] else [acc.reverse]
  | c :: s =>
    if c.isWhitespace then
      if acc = [] then wordsAux [] s else acc.reverse :: wordsAux [] s
    else wordsAux (c :: acc) s

/-- The word sequence of a string: maximal runs of non-whitespace characters. -/
def words (s : JStr) : List JStr := wordsAux [] s

/-- One entry of a `SpeechRecognitionResult`'s alternative list; the
`transcript` property may be absent (`undefined`) on a malformed entry. -/
structure SpeechAlternative where
  transcript : Option JStr
deriving DecidableEq, Repr

/-- One `SpeechRecognitionResult`: `alt0` is `results[i][0]` (absent on a
malformed entry), `isFinal` the finality flag. -/
structure SpeechResult where
  alt0 : Option SpeechAlternative
  isFinal : Bool
deriving DecidableEq, Repr

/-- A `SpeechRecognitionEvent`: the ordered result list plus the
`resultIndex` the Web Speech API attaches (never read by the handlers). -/
structure SpeechEvent where
  resultIndex : Nat
  results : List SpeechResult
deriving DecidableEq, Repr

/-- `String(res[0]?.transcript ?? "")` from `useSpeech.ts` line 100: a missing
first alternative or missing transcript degrades to the empty string. -/
def segText (r : SpeechResult) : JStr :=
  match r.alt0 with
  | none => []
  | some a => a.transcript.getD []

/-- The loop of `useSpeech.ts` lines 98-106: accumulate the `final` and
`interim` strings.  A final segment appends `(final ? " " : "") + text.trim()`
to `final`; a non-final one appends `" " + text.trim()` to `interim`. -/
def buildFI (f itm : JStr) : List SpeechResult → JStr × JStr
  | [] => (f, itm)
  | r :: rest =>
    if r.isFinal then
      buildFI (f ++ (if f = [] then [] else [' ']) ++ jsTrim (segText r)) itm rest
    else
      buildFI f (itm ++ ' ' :: jsTrim (segText r)) rest

/-- The `final` transcript rebuilt by one event (`useSpeech.ts` line 102). -/
def useSpeech_final (results : List SpeechResult) : JStr :=
  (buildFI [] [] results).1

/-- The `interim` transcript rebuilt by one event (`useSpeech.ts` line 104). -/
def useSpeech_interim (results : List SpeechResult) : JStr :=
  (buildFI [] [] results).2

/-- Lines 110-122 of `useSpeech.ts`: if the cleaned interim is nonempty, the
cleaned final is nonempty, and the cleaned interim starts with the cleaned
final, use `interim.trim()`; otherwise use `(final + " " + interim).trim()`. -/
def combineFI (f itm : JStr) : JStr :=
  let cleanFinal := jsToLower (jsTrim f)
  let cleanInterim := jsToLower (jsTrim itm)
  if cleanInterim ≠ [] ∧ cleanFinal ≠ [] ∧ cleanFinal.isPrefixOf cleanInterim
  then jsTrim itm
  else jsTrim (f ++ ' ' :: itm)

/-- The argument the `useSpeech.ts` handler passes to `onResult` (line 124). -/
def useSpeech_combined (results : List SpeechResult) : JStr :=
  combineFI (useSpeech_final results) (useSpeech_interim results)

/-- `part_000` line 26 reads `event.results[i][0].transcript` with no
optional chaining: a missing first alternative throws at once, and a missing
transcript pushes `undefined`, on which `transcripts[i].trim()` later throws.
Either way the handler raises a `TypeError`, modelled as `Except.error`. -/
def part000_text (r : SpeechResult) : Except Unit JStr :=
  match r.alt0 with
  | none => .error ()
  | some a =>
    match a.transcript with
    | none => .error ()
    | some s => .ok s

/-- `combined += (combined ? " " : "") + current` (`part_000` line 41). -/
def jsAppendPart (acc c : JStr) : JStr :=
  if acc = [] then c else acc ++ ' ' :: c

/-- The deduplication loop of `part_000` lines 32-42: skip a segment when the
next segment's trimmed text is truthy (nonempty) and, lowercased, starts with
the current segment's lowercased trimmed text; otherwise append the current
trimmed text to `combined`. -/
def collapseLoop (acc : JStr) : List JStr → JStr
  | [] => acc
  | [t] => jsAppendPart acc (jsTrim t)
  | t :: u :: rest =>
    if jsTrim u ≠ [] ∧ (jsToLower (jsTrim t)).isPrefixOf (jsToLower (jsTrim u))
    then collapseLoop acc (u :: rest)
    else collapseLoop (jsAppendPart acc (jsTrim t)) (u :: rest)

/-- The `part_000` handler: extract every transcript (which may throw), then
run the prefix-collapse loop and pass the result to `onResult`. -/
def part000_run (results : List SpeechResult) : Except Unit JStr := do
  let ts ← results.mapM part000_text
  return collapseLoop [] ts

/-- State of a mounted `useSpeechRecognition` hook.  `handlerAttached` is
whether `recog.onresult` is still set (the effect cleanup at lines 138-142 is
the only code that clears it); `engineActive` mirrors whether the engine was
asked to produce events; `committed` and `emitted` are observer fields: the
final-layer transcript computed by the last processed event, and the ordered
arguments of the `onResult` calls. -/
structure Session where
  isListening : Bool
  handlerAttached : Bool
  engineActive : Bool
  committed : JStr
  emitted : List JStr
deriving DecidableEq, Repr

/-- The hook state right after mount: handler attached, not listening. -/
def initSession : Session :=
  { isListening := false, handlerAttached := true, engineActive := false
  , committed := [], emitted := [] }

/-- `start()` (lines 145-149): set `isListening` and start the engine. -/
def Session.start (s : Session) : Session :=
  { s with isListening := true, engineActive := true }

/-- `stop()` (lines 151-155): clear `isListening` and ask the engine to stop.
It does not detach `recog.onresult`. -/
def Session.stop (s : Session) : Session :=
  { s with isListening := false, engineActive := false }

/-- The effect cleanup (lines 138-142): set `recog.onresult = null`,
`recog.onerror = null`, and abort the engine. -/
def Session.teardown (s : Session) : Session :=
  { s with handlerAttached := false, engineActive := false }

/-- Delivery of a recognition event.  If the handler is attached it runs
unconditionally — it never consults `isListening` or `resultIndex` — and
calls `onResult` exactly once with the combined string. -/
def Session.deliver (s : Session) (e : SpeechEvent) : Session :=
  if s.handlerAttached then
    { s with committed := useSpeech_final e.results
           , emitted := s.emitted ++ [useSpeech_combined e.results] }
  else s

/-- Deliver a list of events in order. -/
def Session.deliverAll (s : Session) (es : List SpeechEvent) : Session :=
  es.foldl Session.deliver s

/-- A JavaScript `\w` word character (ASCII letters, digits, underscore);
every abbreviation key consists only of these, so `\bKEY\b` matches an
occurrence of the key not adjacent to a word character. -/
def isWordChar (c : Char) : Bool := c.isAlphanum || c = '_'

/-- Whether `\b` holds before the current scan position, given the preceding
character of the original string (`none` at the start of the string). -/
def boundaryBefore : Option Char → Bool
  | none => true
  | some c => !isWordChar c

/-- Whether `\bKEY` matches at the head of `s` (case-insensitively) with a
word boundary after the matched region. -/
def matchAt (key s : JStr) : Bool :=
  (jsToLower key).isPrefixOf (jsToLower s) &&
  (match s.drop key.length with
   | [] => true
   | c :: _ => !isWordChar c)

/-- `text.replace(/\bKEY\b/gi, m => m + " (" + expansion + ")")`, scanning
left to right: at a match, emit the matched characters verbatim followed by
`" ("`, the expansion, and `")"`, then resume after the match; otherwise copy
one character.  The `fuel` argument only bounds the recursion; each step
consumes at least one character, so `fuel = s.length` never runs out. -/
def replaceScan (key exp : JStr) : Nat → Option Char → JStr → JStr
  | 0, _, s => s
  | _ + 1, _, [] => []
  | fuel + 1, prev, c :: rest =>
    if boundaryBefore prev && matchAt key (c :: rest) then
      (c :: rest).take key.length ++ (' ' :: '(' :: (exp ++ [')'])) ++
        replaceScan key exp fuel ((c :: rest).take key.length).getLast?
          ((c :: rest).drop key.length)
    else
      c :: replaceScan key exp fuel (some c) rest

/-- The same scan, only reporting whether `\bKEY\b` matches anywhere. -/
def hasMatchScan (key : JStr) : Nat → Option Char → JStr → Bool
  | 0, _, _ => false
  | _ + 1, _, [] => false
  | fuel + 1, prev, c :: rest =>
    if boundaryBefore prev && matchAt key (c :: rest) then true
    else hasMatchScan key fuel (some c) rest

/-- One `expandedText.replace(...)` call of `medicalTerms.ts` lines 141-144. -/
def replaceAbbrev (key exp text : JStr) : JStr :=
  replaceScan key exp text.length none text

/-- Whether the whole-word, case-insensitive regex for `key` matches `text`. -/
def hasAbbrevMatch (key text : JStr) : Bool :=
  hasMatchScan key text.length none text

/-- The `MEDICAL_ABBREVIATIONS` table of `medicalTerms.ts`, in the object's
insertion (iteration) order. -/
def MEDICAL_ABBREVIATIONS : List (JStr × JStr) :=
  [ ("BP".data, "blood pressure".data)
  , ("HR".data, "heart rate".data)
  , ("RR".data, "respiratory rate".data)
  , ("T".data, "temperature".data)
  , ("O2".data, "oxygen".data)
  , ("SpO2".data, "oxygen saturation".data)
  , ("SOB".data, "shortness of breath".data)
  , ("DOB".data, "date of birth".data)
  , ("DOE".data, "dyspnea on exertion".data)
  , ("CP".data, "chest pain".data)
  , ("HA".data, "headache".data)
  , ("N_V".data, "nausea and vomiting".data)
  , ("Abd".data, "abdomen".data)
  , ("Dx".data, "diagnosis".data)
  , ("Tx".data, "treatment".data)
  , ("Rx".data, "prescription".data)
  , ("Hx".data, "history".data)
  , ("Sx".data, "symptoms".data)
  , ("BID".data, "twice daily".data)
  , ("TID".data, "three times daily".data)
  , ("QID".data, "four times daily".data)
  , ("PRN".data, "as needed".data)
  , ("STAT".data, "immediately".data)
  , ("QD".data, "once daily".data)
  , ("HS".data, "at bedtime".data)
  , ("AC".data, "before meals".data)
  , ("PC".data, "after meals".data)
  , ("PO".data, "by mouth".data)
  , ("IV".data, "intravenous".data)
  , ("IM".data, "intramuscular".data)
  , ("SC".data, "subcutaneous".data)
  , ("SL".data, "sublingual".data)
  , ("CBC".data, "complete blood count".data)
  , ("CMP".data, "comprehensive metabolic panel".data)
  , ("BMP".data, "basic metabolic panel".data)
  , ("PT".data, "prothrombin time".data)
  , ("PTT".data, "partial thromboplastin time".data)
  , ("INR".data, "international normalized ratio".data)
  , ("HbA1c".data, "glycated hemoglobin".data)
  , ("TSH".data, "thyroid-stimulating hormone".data)
  , ("ECG".data, "electrocardiogram".data)
  , ("EKG".data, "electrocardiogram".data)
  , ("CT".data, "computed tomography".data)
  , ("MRI".data, "magnetic resonance imaging".data)
  , ("CXR".data, "chest X-ray".data)
  , ("CPR".data, "cardiopulmonary resuscitation".data)
  , ("AED".data, "automated external defibrillator".data)
  , ("ICU".data, "intensive care unit".data)
  , ("ER".data, "emergency room".data)
  , ("ED".data, "emergency department".data)
  , ("MI".data, "myocardial infarction".data)
  , ("CVA".data, "cerebrovascular accident (stroke)".data)
  , ("PE".data, "pulmonary embolism".data)
  , ("DVT".data, "deep vein thrombosis".data)
  , ("COPD".data, "chronic obstructive pulmonary disease".data)
  , ("CHF".data, "congestive heart failure".data)
  , ("HTN".data, "hypertension".data)
  , ("DM".data, "diabetes mellitus".data)
  , ("UTI".data, "urinary tract infection".data)
  , ("URI".data, "upper respiratory infection".data) ]

/-- Stable insertion (by key length, descending) used to model the stable
JavaScript `sort((a, b) => b.length - a.length)` over the table's keys. -/
def insertByLen (x : JStr × JStr) : List (JStr × JStr) → List (JStr × JStr)
  | [] => [x]
  | y :: ys =>
    if x.1.length ≤ y.1.length then y :: insertByLen x ys else x :: y :: ys

/-- The abbreviation entries sorted by key length, descending, ties keeping
the table order (`medicalTerms.ts` lines 132-134; JS `Array.sort` is stable). -/
def sortedAbbrevs : List (JStr × JStr) :=
  MEDICAL_ABBREVIATIONS.foldl (fun acc kv => insertByLen kv acc) []

/-- `expandMedicalAbbreviations` (`medicalTerms.ts` lines 128-148): apply the
whole-word replacement for every abbreviation, longest keys first. -/
def expandMedicalAbbreviations (text : JStr) : JStr :=
  sortedAbbrevs.foldl (fun acc kv => replaceAbbrev kv.1 kv.2 acc) text

/-- The texts of an event's final-flagged segments, in order. -/
def finalTexts (results : List SpeechResult) : List JStr :=
  (results.filter (·.isFinal)).map segText

/-- The accumulation of the `final` string alone, as a fold over the
final-segment texts. -/
def buildFinal (f : JStr) (ts : List JStr) : JStr :=
  ts.foldl (fun acc t => acc ++ (if acc = [] then [] else [' ']) ++ jsTrim t) f

theorem buildFI_fst (rs : List SpeechResult) : ∀ f itm : JStr,
    (buildFI f itm rs).1 = buildFinal f (finalTexts rs) := by
  induction rs with
  | nil => intro f itm; rfl
  | cons r rest ih =>
    intro f itm
    by_cases hf : r.isFinal
    · simp [buildFI, hf, ih, finalTexts, buildFinal, List.filter_cons]
    · simp [buildFI, hf, ih, finalTexts, buildFinal, List.filter_cons]

theorem wordsAux_append_space (s : JStr) : ∀ (acc : JStr) (t : JStr),
    wordsAux acc (s ++ ' ' :: t) = wordsAux acc s ++ wordsAux [] t := by
  induction s with
  | nil =>
    intro acc t
    by_cases h : acc = [] <;> simp [wordsAux, h]
  | cons c s ih =>
    intro acc t
    by_cases hws : c.isWhitespace
    · by_cases h : acc = [] <;> simp [wordsAux, hws, h, ih]
    · simp [wordsAux, hws, ih]

theorem words_append_space (s t : JStr) :
    words (s ++ ' ' :: t) = words s ++ words t := by
  simp [words, wordsAux_append_space]

theorem words_step (f t : JStr) :
    words (f ++ (if f = [] then [] else [' ']) ++ jsTrim t)
      = words f ++ words (jsTrim t) := by
  by_cases h : f = []
  · simp [h, words, wordsAux]
  · have : f ++ (if f = [] then [] else [' ']) ++ jsTrim t = f ++ ' ' :: jsTrim t := by
      simp [h]
    rw [this, words_append_space]

theorem words_buildFinal (ts : List JStr) : ∀ f : JStr,
    ∃ w, words (buildFinal f ts) = words f ++ w := by
  induction ts with
  | nil => intro f; exact ⟨[], by simp [buildFinal]⟩
  | cons t ts ih =>
    intro f
    obtain ⟨w, hw⟩ := ih (f ++ (if f = [] then [] else [' ']) ++ jsTrim t)
    refine ⟨words (jsTrim t) ++ w, ?_⟩
    have hstep : buildFinal f (t :: ts)
        = buildFinal (f ++ (if f = [] then [] else [' ']) ++ jsTrim t) ts := rfl
    rw [hstep, hw, words_step, List.append_assoc]

theorem buildFinal_append (f : JStr) (ts₁ ts₂ : List JStr) :
    buildFinal f (ts₁ ++ ts₂) = buildFinal (buildFinal f ts₁) ts₂ :=
  List.foldl_append _ _ _ _

theorem jsTrim_eq_nil_iff (s : JStr) :
    jsTrim s = [] ↔ ∀ c ∈ s, c.isWhitespace = true := by
  unfold jsTrim
  rw [List.reverse_eq_nil_iff, List.dropWhile_eq_nil_iff]
  constructor
  · intro h c hc
    rw [← List.takeWhile_append_dropWhile (p := Char.isWhitespace) (l := s)] at hc
    rcases List.mem_append.mp hc with h1 | h1
    · exact List.mem_takeWhile_imp h1
    · exact h c (List.mem_reverse.mpr h1)
  · intro h c hc
    apply h
    rw [← List.takeWhile_append_dropWhile (p := Char.isWhitespace) (l := s)]
    exact List.mem_append.mpr (Or.inr (List.mem_reverse.mp hc))

theorem dropWhile_ws_append (f l : JStr) (h : ∀ c ∈ f, c.isWhitespace = true) :
    (f ++ l).dropWhile Char.isWhitespace = l.dropWhile Char.isWhitespace := by
  induction f with
  | nil => rfl
  | cons c f ih =>
    have hc : c.isWhitespace = true := h c (List.mem_cons_self c f)
    simp only [List.cons_append, List.dropWhile_cons, hc, if_true]
    exact ih fun x hx => h x (List.mem_cons_of_mem c hx)

theorem jsTrim_ws_cons (f itm : JStr) (h : jsTrim f = []) :
    jsTrim (f ++ ' ' :: itm) = jsTrim itm := by
  have hws : ∀ c ∈ f, c.isWhitespace = true := (jsTrim_eq_nil_iff f).mp h
  unfold jsTrim
  rw [dropWhile_ws_append f (' ' :: itm) hws]
  simp [List.dropWhile_cons]

/-- C1 (counterexample): the handler rebuilds the transcript from scratch on
every event, so nothing enforces growth across events.  Delivering a final
segment "hello" and then an event whose only final segment is "bye" makes the
rebuilt committed transcript go from "hello" to "bye": the word sequence of
the earlier committed transcript is not contained (even as a subsequence) in
the later one, refuting the claim as stated. -/
theorem c1_counterexample :
    ¬ List.Sublist
      (words (((initSession.start).deliver
        ⟨0, [⟨some ⟨some "hello".data⟩, true⟩]⟩).committed))
      (words ((((initSession.start).deliver
        ⟨0, [⟨some ⟨some "hello".data⟩, true⟩]⟩).deliver
          ⟨0, [⟨some ⟨some "bye".data⟩, true⟩]⟩).committed)) := by
  decide

/-- C1 (amended): committed text grows monotonically only under the
engine-side guarantee the rebuild-from-scratch handler relies on — that the
next event's final-segment texts extend the previous event's.  Whenever the
final-segment texts of event `e₁` are a prefix of those of event `e₂`
(`∃ rest`), the word sequence of the committed transcript after `e₁` is
contained (as a contiguous prefix, hence as a word subsequence) in the
committed transcript after `e₂`; the code itself never removes committed
words in that case.  Without that hypothesis the property fails
(`c1_counterexample`). -/
theorem c1_monotonic_growth (s : Session) (e1 e2 : SpeechEvent)
    (h : ∃ rest, finalTexts e2.results = finalTexts e1.results ++ rest) :
    List.Sublist (words ((s.deliver e1).committed))
      (words (((s.deliver e1).deliver e2).committed)) := by
  obtain ⟨rest, hrest⟩ := h
  by_cases ha : s.handlerAttached
  · have h1 : (s.deliver e1).committed = useSpeech_final e1.results := by
      simp [Session.deliver, ha]
    have h2 : ((s.deliver e1).deliver e2).committed = useSpeech_final e2.results := by
      simp [Session.deliver, ha]
    rw [h1, h2, useSpeech_final, useSpeech_final, buildFI_fst, buildFI_fst, hrest,
      buildFinal_append]
    obtain ⟨w, hw⟩ := words_buildFinal rest (buildFinal [] (finalTexts e1.results))
    rw [hw]
    exact List.sublist_append_left _ _
  · have h1 : s.deliver e1 = s := by simp [Session.deliver, ha]
    have h2 : s.deliver e2 = s := by simp [Session.deliver, ha]
    rw [h1, h2]

/-- C1 (witness): the amended theorem applied to a concrete pair of events
where the second event's final segments extend the first's. -/
theorem c1_witness :
    List.Sublist
      (words (((initSession.start).deliver
        ⟨0, [⟨some ⟨some "hello".data⟩, true⟩]⟩).committed))
      (words ((((initSession.start).deliver
        ⟨0, [⟨some ⟨some "hello".data⟩, true⟩]⟩).deliver
          ⟨1, [⟨some ⟨some "hello".data⟩, true⟩, ⟨some ⟨some "doctor".data⟩, true⟩]⟩).committed)) :=
  c1_monotonic_growth _ _ _ ⟨["doctor".data], by decide⟩

/-- C2 (counterexample): the loop's skip condition also requires the next
segment's trimmed text to be truthy (nonempty).  For the consecutive
segments `a = " "` and `b = " "`, `b`'s trimmed text (the empty string)
case-insensitively starts with `a`'s trimmed text (also empty), yet `a` is
not dropped: starting from the accumulated text "x", keeping `a` yields
"x  " while dropping it would yield "x " — `a` contributes a separator space
to the output, refuting the claim's unconditional drop rule. -/
theorem c2_counterexample :
    (jsToLower (jsTrim " ".data)).isPrefixOf (jsToLower (jsTrim " ".data)) = true ∧
    collapseLoop "x".data [" ".data, " ".data] = "x  ".data ∧
    collapseLoop "x".data [" ".data] = "x ".data ∧
    collapseLoop "x".data [" ".data, " ".data] ≠ collapseLoop "x".data [" ".data] := by
  decide

/-- C2 (amended): for the single event with segments
`["my", "my name", "my name is"]` the `part_000` handler commits exactly
"my name is"; and for consecutive segments `a` then `b` where `b`'s trimmed
text is nonempty and case-insensitively starts with `a`'s trimmed text, the
loop drops `a`, which then contributes nothing to the output (the
nonemptiness of `b`'s trimmed text is the condition the claim omits —
`c2_counterexample`). -/
theorem c2_prefix_collapse :
    part000_run [⟨some ⟨some "my".data⟩, true⟩, ⟨some ⟨some "my name".data⟩, true⟩,
        ⟨some ⟨some "my name is".data⟩, true⟩] = Except.ok "my name is".data ∧
    ∀ (acc a b : JStr) (rest : List JStr), jsTrim b ≠ [] →
      (jsToLower (jsTrim a)).isPrefixOf (jsToLower (jsTrim b)) = true →
      collapseLoop acc (a :: b :: rest) = collapseLoop acc (b :: rest) := by
  refine ⟨by rfl, ?_⟩
  intro acc a b rest h1 h2
  simp [collapseLoop, h1, h2]

/-- C2 (witness): the drop rule applied to the concrete consecutive pair
"my" then "my name". -/
theorem c2_witness :
    collapseLoop [] ["my".data, "my name".data] = collapseLoop [] ["my name".data] :=
  c2_prefix_collapse.2 [] "my".data "my name".data [] (by decide) (by decide)

/-- C3 (confirmed): at every reconciliation step, if the trimmed interim
text, lowercased, starts with the trimmed finalized text, the combined
string is the trimmed interim alone; otherwise it is
`(final + " " + interim).trim()`.  The code additionally guards on both
cleaned strings being nonempty, but those guards never change the value:
when the cleaned final is empty the else branch also evaluates to the
trimmed interim, and when the cleaned interim is empty while the final is
not, the claim's condition is false anyway.  The concrete instance: a
committed "chest pain" with interim "chest pain is severe" combines to
"chest pain is severe". -/
theorem c3_interim_superset :
    (∀ f itm : JStr,
      ((jsToLower (jsTrim f)).isPrefixOf (jsToLower (jsTrim itm)) = true →
        combineFI f itm = jsTrim itm) ∧
      ((jsToLower (jsTrim f)).isPrefixOf (jsToLower (jsTrim itm)) = false →
        combineFI f itm = jsTrim (f ++ ' ' :: itm))) ∧
    useSpeech_combined [⟨some ⟨some "chest pain".data⟩, true⟩,
        ⟨some ⟨some "chest pain is severe".data⟩, false⟩]
      = "chest pain is severe".data := by
  refine ⟨?_, by decide⟩
  intro f itm
  constructor
  · intro h
    by_cases hf : jsToLower (jsTrim f) = []
    · have htf : jsTrim f = [] := by
        have hf' : List.map Char.toLower (jsTrim f) = [] := by simpa [jsToLower] using hf
        exact List.map_eq_nil_iff.mp hf'
      rw [combineFI]
      rw [if_neg (by simp [hf])]
      exact jsTrim_ws_cons f itm htf
    · by_cases hi : jsToLower (jsTrim itm) = []
      · exfalso
        rw [hi] at h
        cases hcf : jsToLower (jsTrim f) with
        | nil => exact hf hcf
        | cons c cs => rw [hcf] at h; simp [List.isPrefixOf] at h
      · rw [combineFI]
        rw [if_pos ⟨hi, hf, h⟩]
  · intro h
    rw [combineFI]
    rw [if_neg ?_]
    intro hcond
    rw [hcond.2.2] at h
    simp at h

/-- C3 (witness): the prefer-interim branch at the concrete final/interim
pair produced by the "chest pain" event. -/
theorem c3_witness :
    combineFI "chest pain".data " chest pain is severe".data
      = jsTrim " chest pain is severe".data :=
  ((c3_interim_superset.1 "chest pain".data " chest pain is severe".data).1 (by decide))

/-- C4 (counterexample): the handler calls `onResult` unconditionally at the
end of every processed event — there is no `lastEmitted` comparison anywhere
in the hook.  Delivering the same "hello" event twice produces two
`onResult("hello")` calls, not the single call the claim requires for a pair
of events with identical combined strings. -/
theorem c4_counterexample :
    ((initSession.start).deliverAll
      [⟨0, [⟨some ⟨some "hello".data⟩, true⟩]⟩,
       ⟨0, [⟨some ⟨some "hello".data⟩, true⟩]⟩]).emitted
      = ["hello".data, "hello".data] := by
  decide

/-- C4 (amended): while the handler is attached, every delivered event
produces exactly one `onResult` call whose argument is that event's combined
string — emissions are never suppressed, so `n` events yield `n` calls
regardless of repeated combined values. -/
theorem c4_one_emission_per_event (s : Session) (es : List SpeechEvent)
    (h : s.handlerAttached = true) :
    (s.deliverAll es).emitted
      = s.emitted ++ es.map (fun e => useSpeech_combined e.results) := by
  induction es generalizing s with
  | nil => simp [Session.deliverAll]
  | cons e es ih =>
    have hstep : s.deliverAll (e :: es) = (s.deliver e).deliverAll es := rfl
    have hd : (s.deliver e).handlerAttached = true := by simp [Session.deliver, h]
    rw [hstep, ih _ hd]
    simp [Session.deliver, h]

/-- C4 (witness): the amended theorem at a concrete one-event delivery. -/
theorem c4_witness :
    ((initSession.start).deliverAll [⟨0, [⟨some ⟨some "hi".data⟩, true⟩]⟩]).emitted
      = (initSession.start).emitted
        ++ [⟨0, [⟨some ⟨some "hi".data⟩, true⟩]⟩].map
              (fun e : SpeechEvent => useSpeech_combined e.results) :=
  c4_one_emission_per_event _ _ (by decide)

/-- C5 (counterexample): `stop()` only clears `isListening` and calls
`recognition.stop()`; it does not detach `recog.onresult`.  A late event
delivered after `stop()` therefore still runs the handler: it triggers an
`onResult("hello")` call and rewrites the rebuilt final transcript,
contradicting the claim. -/
theorem c5_counterexample :
    ((((initSession.start).stop).deliver
        ⟨0, [⟨some ⟨some "hello".data⟩, true⟩]⟩).emitted = ["hello".data]) ∧
    ((((initSession.start).stop).deliver
        ⟨0, [⟨some ⟨some "hello".data⟩, true⟩]⟩).committed = "hello".data) := by
  decide

/-- C5 (amended): only the effect cleanup (teardown) detaches the handler;
after teardown, any delivered event is a complete no-op — no `onResult`
call, no change to any state.  After `stop()` alone the handler remains
attached and a late event is still processed (`c5_counterexample`). -/
theorem c5_ignored_after_teardown (s : Session) (e : SpeechEvent) :
    (s.teardown).deliver e = s.teardown := by
  simp [Session.teardown, Session.deliver]

/-- C7 (counterexample): the handler never reads `resultIndex`; it always
rebuilds from the full result list.  An event with `resultIndex = 5` (beyond
its single-segment list) and final text "bye" is processed in full: it
replaces the previously rebuilt committed transcript "hello" with "bye"
rather than being a no-op. -/
theorem c7_counterexample :
    ((⟨5, [⟨some ⟨some "bye".data⟩, true⟩]⟩ : SpeechEvent).resultIndex
        ≥ (⟨5, [⟨some ⟨some "bye".data⟩, true⟩]⟩ : SpeechEvent).results.length) ∧
    ((((initSession.start).deliver ⟨0, [⟨some ⟨some "hello".data⟩, true⟩]⟩).deliver
        ⟨5, [⟨some ⟨some "bye".data⟩, true⟩]⟩).committed
      ≠ (((initSession.start)).deliver ⟨0, [⟨some ⟨some "hello".data⟩, true⟩]⟩).committed) := by
  decide

/-- C7 (amended): the handler ignores `resultIndex` entirely — two events
with the same result list are processed identically whatever their
`resultIndex` values — and redelivering an event with an unchanged result
list leaves the rebuilt committed transcript unchanged (rebuilding from
scratch makes redelivery idempotent on the transcript); no `resultIndex`
value is an error. -/
theorem c7_resultIndex_ignored :
    (∀ (s : Session) (e e' : SpeechEvent), e.results = e'.results →
      s.deliver e = s.deliver e') ∧
    (∀ (s : Session) (e : SpeechEvent),
      ((s.deliver e).deliver e).committed = (s.deliver e).committed) := by
  constructor
  · intro s e e' h
    simp [Session.deliver, h]
  · intro s e
    by_cases ha : s.handlerAttached <;> simp [Session.deliver, ha]

/-- C7 (witness): two concrete events differing only in `resultIndex` are
processed identically. -/
theorem c7_witness :
    (initSession.start).deliver ⟨0, [⟨some ⟨some "hello".data⟩, true⟩]⟩
      = (initSession.start).deliver ⟨7, [⟨some ⟨some "hello".data⟩, true⟩]⟩ :=
  c7_resultIndex_ignored.1 _ _ _ rfl

/-- C8 (counterexample): an event with no segments is not a no-op: the
handler still runs, clears the rebuilt committed transcript, and calls
`onResult` with the empty string.  After a "hello" event, delivering the
empty event leaves `emitted = ["hello", ""]` (a second consumer call) and
`committed = ""` (the transcript was erased). -/
theorem c8_counterexample :
    ((((initSession.start).deliver ⟨0, [⟨some ⟨some "hello".data⟩, true⟩]⟩).deliver
        ⟨0, []⟩).emitted = ["hello".data, []]) ∧
    ((((initSession.start).deliver ⟨0, [⟨some ⟨some "hello".data⟩, true⟩]⟩).deliver
        ⟨0, []⟩).committed = []) := by
  decide

theorem buildFI_ws (rs : List SpeechResult) : ∀ itm : JStr,
    (∀ r ∈ rs, jsTrim (segText r) = []) → (∀ c ∈ itm, c.isWhitespace = true) →
    (buildFI [] itm rs).1 = [] ∧ ∀ c ∈ (buildFI [] itm rs).2, c.isWhitespace = true := by
  induction rs with
  | nil => intro itm _ h2; exact ⟨rfl, h2⟩
  | cons r rest ih =>
    intro itm h1 h2
    have hr : jsTrim (segText r) = [] := h1 r (List.mem_cons_self r rest)
    have h1' : ∀ x ∈ rest, jsTrim (segText x) = [] :=
      fun x hx => h1 x (List.mem_cons_of_mem r hx)
    by_cases hf : r.isFinal
    · have : buildFI [] itm (r :: rest) = buildFI [] itm rest := by
        simp [buildFI, hf, hr]
      rw [this]
      exact ih itm h1' h2
    · have : buildFI [] itm (r :: rest) = buildFI [] (itm ++ [' ']) rest := by
        simp [buildFI, hf, hr]
      rw [this]
      refine ih (itm ++ [' ']) h1' ?_
      intro c hc
      rcases List.mem_append.mp hc with h | h
      · exact h2 c h
      · rw [List.mem_singleton.mp h]; rfl

/-- C8 (amended): an event whose segments all trim to the empty string (in
particular an event with no segments) produces the empty combined string —
but it is not a no-op: the handler still calls `onResult` once with that
empty string (and rewrites the rebuilt transcript, `c8_counterexample`).
Here: the combined string of any all-whitespace event is empty, and
delivering the empty event to an attached session appends exactly one empty
emission. -/
theorem c8_empty_event :
    (∀ rs : List SpeechResult, (∀ r ∈ rs, jsTrim (segText r) = []) →
      useSpeech_combined rs = []) ∧
    (∀ s : Session, s.handlerAttached = true →
      (s.deliver ⟨0, []⟩).emitted = s.emitted ++ [[]]) := by
  constructor
  · intro rs h
    obtain ⟨hfin, hitm⟩ := buildFI_ws rs [] h (by intro c hc; cases hc)
    have htitm : jsTrim (buildFI [] [] rs).2 = [] := (jsTrim_eq_nil_iff _).mpr hitm
    rw [useSpeech_combined, useSpeech_final, useSpeech_interim, hfin, combineFI]
    rw [if_neg (by simp [htitm, jsToLower])]
    have := jsTrim_ws_cons [] (buildFI [] [] rs).2 rfl
    simpa [this] using htitm
  · intro s h
    simp [Session.deliver, h]
    decide

/-- C8 (witness): the amended theorem at a concrete event whose single
segment is whitespace. -/
theorem c8_witness :
    useSpeech_combined [⟨some ⟨some "  ".data⟩, true⟩] = [] :=
  c8_empty_event.1 _ (by decide)

/-- C6 (counterexample): the `part_000` handler reads
`event.results[i][0].transcript` without optional chaining, so a segment
whose first alternative is missing makes it throw a `TypeError` rather than
degrade to an empty contribution — it is not total over malformed events. -/
theorem c6_counterexample :
    part000_run [⟨none, false⟩] = Except.error () := rfl

/-- C6 (amended): the `useSpeech.ts` handler is total — a missing first
alternative or a missing transcript contributes the empty string via
`String(res[0]?.transcript ?? "")` — while the `part_000` variant is total
only on events every one of whose segments carries a transcript string (on a
malformed segment it throws, `c6_counterexample`). -/
theorem c6_totality :
    (∀ r : SpeechResult, r.alt0 = none → segText r = []) ∧
    (∀ (r : SpeechResult) (a : SpeechAlternative),
      r.alt0 = some a → a.transcript = none → segText r = []) ∧
    (∀ rs : List SpeechResult, (∀ r ∈ rs, (part000_text r).isOk = true) →
      (part000_run rs).isOk = true) := by
  refine ⟨?_, ?_, ?_⟩
  · intro r h; simp [segText, h]
  · intro r a h1 h2; simp [segText, h1, h2]
  · intro rs h
    have hmap : ∀ rs : List SpeechResult, (∀ r ∈ rs, (part000_text r).isOk = true) →
        ∃ ts, rs.mapM part000_text = Except.ok ts := by
      intro rs
      induction rs with
      | nil => intro _; exact ⟨[], rfl⟩
      | cons r rest ih =>
        intro h
        have hr := h r (List.mem_cons_self r rest)
        obtain ⟨ts, hts⟩ := ih fun x hx => h x (List.mem_cons_of_mem r hx)
        cases he : part000_text r with
        | error e => rw [he] at hr; simp [Except.isOk, Except.toBool] at hr
        | ok v =>
          refine ⟨v :: ts, ?_⟩
          rw [List.mapM_cons, he, hts]
          rfl
    obtain ⟨ts, hts⟩ := hmap rs h
    have hrun : part000_run rs = Except.ok (collapseLoop [] ts) := by
      unfold part000_run
      rw [hts]
      rfl
    rw [hrun]
    rfl

/-- C6 (witness): totality of the `part_000` handler on a concrete
well-formed event. -/
theorem c6_witness :
    (part000_run [⟨some ⟨some "hi".data⟩, true⟩]).isOk = true :=
  c6_totality.2.2 _ (by decide)

/-- C9 (confirmed): the `part_000` handler is a pure function of the
delivered event's transcript texts: two events whose segments extract the
same transcripts produce the same `onResult` argument, whatever their
`isFinal` flags and independent of any prior events or session history
(there is no other input to the computation). -/
theorem c9_deterministic (rs rs' : List SpeechResult)
    (h : rs.map part000_text = rs'.map part000_text) :
    part000_run rs = part000_run rs' := by
  have hmapM : ∀ (rs rs' : List SpeechResult),
      rs.map part000_text = rs'.map part000_text →
      rs.mapM part000_text = rs'.mapM part000_text := by
    intro rs
    induction rs with
    | nil =>
      intro rs' h
      cases rs' with
      | nil => rfl
      | cons r rest => simp at h
    | cons r rest ih =>
      intro rs' h
      cases rs' with
      | nil => simp at h
      | cons r' rest' =>
        simp only [List.map_cons, List.cons.injEq] at h
        rw [List.mapM_cons, List.mapM_cons, h.1, ih rest' h.2]
  rw [part000_run, part000_run, hmapM rs rs' h]

/-- C9 (witness): two concrete events with identical transcripts but
different `isFinal` flags produce the same output. -/
theorem c9_witness :
    part000_run [⟨some ⟨some "hi".data⟩, true⟩]
      = part000_run [⟨some ⟨some "hi".data⟩, false⟩] :=
  c9_deterministic _ _ rfl

theorem replaceScan_keeps (key exp : JStr) : ∀ (fuel : Nat) (prev : Option Char) (s : JStr),
    List.Sublist s (replaceScan key exp fuel prev s) := by
  intro fuel
  induction fuel with
  | zero => intro prev s; exact List.Sublist.refl s
  | succ n ih =>
    intro prev s
    cases s with
    | nil => exact List.Sublist.refl []
    | cons c rest =>
      by_cases h : (boundaryBefore prev && matchAt key (c :: rest)) = true
      · rw [replaceScan, if_pos h]
        have h1 := ih (((c :: rest).take key.length).getLast?) ((c :: rest).drop key.length)
        have h2 := h1.trans (List.sublist_append_right
          (' ' :: '(' :: (exp ++ [')'])) _)
        have h3 := h2.append_left ((c :: rest).take key.length)
        rw [List.take_append_drop] at h3
        simpa [List.append_assoc] using h3
      · rw [replaceScan, if_neg h]
        exact (ih (some c) rest).cons₂ c

theorem replaceScan_no_match (key exp : JStr) : ∀ (fuel : Nat) (prev : Option Char) (s : JStr),
    hasMatchScan key fuel prev s = false → replaceScan key exp fuel prev s = s := by
  intro fuel
  induction fuel with
  | zero => intro prev s _; rfl
  | succ n ih =>
    intro prev s h
    cases s with
    | nil => rfl
    | cons c rest =>
      by_cases hc : (boundaryBefore prev && matchAt key (c :: rest)) = true
      · rw [hasMatchScan, if_pos hc] at h
        exact absurd h (by simp)
      · rw [hasMatchScan, if_neg hc] at h
        rw [replaceScan, if_neg hc, ih (some c) rest h]

theorem expand_keeps_aux : ∀ (l : List (JStr × JStr)) (t : JStr),
    List.Sublist t (l.foldl (fun acc kv => replaceAbbrev kv.1 kv.2 acc) t) := by
  intro l
  induction l with
  | nil => intro t; exact List.Sublist.refl t
  | cons kv l ih =>
    intro t
    have h1 : List.Sublist t (replaceAbbrev kv.1 kv.2 t) :=
      replaceScan_keeps kv.1 kv.2 t.length none t
    exact h1.trans (ih (replaceAbbrev kv.1 kv.2 t))

theorem expand_unchanged_aux : ∀ (l : List (JStr × JStr)) (t : JStr),
    (∀ kv ∈ l, hasAbbrevMatch kv.1 t = false) →
    l.foldl (fun acc kv => replaceAbbrev kv.1 kv.2 acc) t = t := by
  intro l
  induction l with
  | nil => intro t _; rfl
  | cons kv l ih =>
    intro t h
    have h1 : replaceAbbrev kv.1 kv.2 t = t :=
      replaceScan_no_match kv.1 kv.2 t.length none t (h kv (List.mem_cons_self kv l))
    have hstep : (kv :: l).foldl (fun acc kv => replaceAbbrev kv.1 kv.2 acc) t
        = l.foldl (fun acc kv => replaceAbbrev kv.1 kv.2 acc) (replaceAbbrev kv.1 kv.2 t) := rfl
    rw [hstep, h1]
    exact ih t fun x hx => h x (List.mem_cons_of_mem kv hx)

theorem mem_insertByLen (x y : JStr × JStr) : ∀ l : List (JStr × JStr),
    x ∈ insertByLen y l ↔ x = y ∨ x ∈ l := by
  intro l
  induction l with
  | nil => simp [insertByLen]
  | cons z l ih =>
    by_cases h : y.1.length ≤ z.1.length
    · simp only [insertByLen, if_pos h, List.mem_cons, ih]
      tauto
    · simp only [insertByLen, if_neg h, List.mem_cons]

theorem mem_sortFold (x : JStr × JStr) : ∀ (l acc : List (JStr × JStr)),
    x ∈ l.foldl (fun acc kv => insertByLen kv acc) acc ↔ x ∈ acc ∨ x ∈ l := by
  intro l
  induction l with
  | nil => intro acc; simp
  | cons kv l ih =>
    intro acc
    have hstep : (kv :: l).foldl (fun acc kv => insertByLen kv acc) acc
        = l.foldl (fun acc kv => insertByLen kv acc) (insertByLen kv acc) := rfl
    rw [hstep, ih (insertByLen kv acc), mem_insertByLen]
    simp only [List.mem_cons]
    tauto

theorem mem_sortedAbbrevs (x : JStr × JStr) :
    x ∈ sortedAbbrevs ↔ x ∈ MEDICAL_ABBREVIATIONS := by
  rw [sortedAbbrevs, mem_sortFold]
  simp

/-- C10 (confirmed): every replacement made by `expandMedicalAbbreviations`
keeps the matched characters verbatim and only inserts ` (expansion)` after
them, so the original text is always a subsequence of the result, and a text
in which no abbreviation of the table matches as a whole word is returned
unchanged.  Concretely, "BP 120" expands to "BP (blood pressure) 120". -/
theorem c10_expand_preserves :
    (∀ text : JStr, List.Sublist text (expandMedicalAbbreviations text)) ∧
    (∀ text : JStr, (∀ kv ∈ MEDICAL_ABBREVIATIONS, hasAbbrevMatch kv.1 text = false) →
      expandMedicalAbbreviations text = text) ∧
    expandMedicalAbbreviations "BP 120".data = "BP (blood pressure) 120".data := by
  refine ⟨?_, ?_, by decide⟩
  · intro text
    exact expand_keeps_aux sortedAbbrevs text
  · intro text h
    exact expand_unchanged_aux sortedAbbrevs text
      fun kv hkv => h kv ((mem_sortedAbbrevs kv).mp hkv)

/-- C10 (witness): a text with no matching abbreviation is returned
unchanged, at a concrete input. -/
theorem c10_witness :
    expandMedicalAbbreviations "hello doctor".data = "hello doctor".data :=
  c10_expand_preserves.2.1 _ (by decide)
